import Mathlib

/-!
Shallow embedding of the price-tracker service (`main.py`) and proofs of the
specification claims about it.

Modelling conventions:
* Python `float` prices are modelled as `ℚ`; all concrete values appearing in
  the claims are decimal fractions, which `ℚ` represents exactly.
* Python truthiness of an optional number (`if product_info['price']`,
  `if not product.lowest_price`) is `truthyQ`: `None` and `0.0` are falsy.
  Truthiness of an optional string is `truthyS`: `None` and `""` are falsy.
* Timestamps are opaque rationals supplied by the caller (`now`).
* The character class stripped by `extract_price` is taken from the literal
  bytes of the source file, which contain a double-encoded (mojibake) version
  of the intended currency symbols; consequently the stripped set is
  { '‚', 'Ç', 'π', '$', '¨', '¬', '£', '•', ',' } together with whitespace.
-/

/-- Python truthiness for an optional number: `None` and `0` are falsy. -/
def truthyQ : Option ℚ → Bool
  | none => false
  | some v => v ≠ 0

/-- Python truthiness for an optional string: `None` and `""` are falsy. -/
def truthyS : Option String → Bool
  | none => false
  | some s => s ≠ ""

/-- The characters removed by `re.sub(r'[..],\s]', '', text)` in
`BaseScraper.extract_price`, read from the literal (mojibake) bytes of the
source: U+201A, U+00C7, U+03C0, `$`, U+00A8, U+00AC, U+00A3, U+2022, the comma,
and ASCII whitespace (`\s`). -/
def stripChars : List Char :=
  ['‚', 'Ç', 'π', '$', '¨', '¬', '£', '•',
   ',', ' ', '\t', '\n', '\x0b', '\x0c', '\r']

/-- Value of a list of decimal digit characters, most significant first. -/
def digitsVal (ds : List Char) : Nat :=
  ds.foldl (fun a c => 10 * a + (c.toNat - 48)) 0

/-- Rational value of a whole-digits / fraction-digits pair, i.e. the value of
the decimal numeral `w.f` (an empty fraction contributes 0, matching
`float("12.") = 12.0`). -/
def ratOfNum (w f : List Char) : ℚ :=
  mkRat (Int.ofNat (digitsVal w * 10 ^ f.length + digitsVal f)) (10 ^ f.length)

/-- Split a character list beginning with a digit into the greedy match of
`[\d]+\.?\d*`: the leading digit run and the optional fraction digits after a
single decimal point. -/
def numTail (l : List Char) : List Char × List Char :=
  let w := l.takeWhile Char.isDigit
  match l.drop w.length with
  | '.' :: r2 => (w, r2.takeWhile Char.isDigit)
  | _ => (w, [])

/-- Leftmost match of `re.search(r'[\d]+\.?\d*', s)`: scan to the first digit
and take the greedy match there; `none` when the text has no digit. -/
def findNumber : List Char → Option (List Char × List Char)
  | [] => none
  | c :: cs => if c.isDigit then some (numTail (c :: cs)) else findNumber cs

/-- `BaseScraper.extract_price`: empty text is falsy and yields `None`;
otherwise strip the character class, search for the first digit run with
optional single decimal point, and parse it. -/
def extract_price (text : String) : Option ℚ :=
  if text = "" then none
  else
    match findNumber (text.toList.filter (fun c => !(stripChars.contains c))) with
    | some (w, f) => some (ratOfNum w f)
    | none => none

/-- Model of Python `float(s)` restricted to the shapes that occur here:
an optional sign, a digit run, an optional decimal point and fraction digit
run, with at least one digit in total and nothing else in the string.  Any
other character (for instance a thousands separator) makes the parse fail,
modelling the `ValueError` branch. -/
def pyFloat (s : String) : Option ℚ :=
  let l1 : Bool × List Char :=
    match s.toList with
    | '-' :: r => (true, r)
    | '+' :: r => (false, r)
    | r => (false, r)
  let w := l1.2.takeWhile Char.isDigit
  let r1 := l1.2.drop w.length
  let fr : List Char × List Char :=
    match r1 with
    | '.' :: r2 => (r2.takeWhile Char.isDigit, r2.drop (r2.takeWhile Char.isDigit).length)
    | _ => ([], r1)
  if fr.2 = [] ∧ ¬(w = [] ∧ fr.1 = []) then
    some (if l1.1 then -(ratOfNum w fr.1) else ratOfNum w fr.1)
  else none

/-- The Amazon whole/fraction combinator (`AmazonScraper.get_product_info`,
secondary path): a missing fraction element defaults to `"00"`; try
`float(f"{whole}.{fraction}")`, and on `ValueError` fall back to
`extract_price(whole)`. -/
def combineWholeFraction (whole : String) (fraction : Option String) : Option ℚ :=
  match pyFloat (whole ++ "." ++ fraction.getD "00") with
  | some v => some v
  | none => extract_price whole

/-- Results of `soup.select_one(...).get_text().strip()` for the fixed Amazon
selector lists, modelling the fetched document: one entry per selector in
source order (`none` = selector matched nothing), plus the price container's
whole/fraction sub-element texts (`containerWhole = none` when the container
or its whole element is absent). -/
structure AmazonDoc where
  nameResults : List (Option String)
  priceResults : List (Option String)
  containerWhole : Option String
  containerFraction : Option String

/-- Transient scrape result `{success, name?, price?}` (`error` and the extra
Flipkart metadata fields are dropped: nothing downstream reads them). -/
structure ExtractionResult where
  success : Bool
  name : Option String
  price : Option ℚ

/-- Name selector loop: first selector that matched an element wins and its
text is taken, even when that text is empty. -/
def firstMatch : List (Option String) → Option String
  | [] => none
  | some t :: _ => some t
  | none :: rest => firstMatch rest

/-- Amazon price selector loop: each matching element overwrites `price` with
`extract_price` of its text; the loop stops at the first truthy price, so a
final falsy (`None`/`0.0`) value from the last matching selector is kept. -/
def amazonPriceScan : List (Option String) → Option ℚ → Option ℚ
  | [], acc => acc
  | none :: rest, acc => amazonPriceScan rest acc
  | some t :: rest, _ =>
      let p := extract_price t
      if truthyQ p then p else amazonPriceScan rest p

/-- `AmazonScraper.get_product_info` on an already-fetched document: name and
price selector scans, then the whole/fraction combinator only when the scan
left `price` exactly `None`, and `success = True` unconditionally. -/
def amazonGetProductInfo (d : AmazonDoc) : ExtractionResult :=
  let name := firstMatch d.nameResults
  let price := amazonPriceScan d.priceResults none
  let price2 :=
    match price with
    | some v => some v
    | none =>
        match d.containerWhole with
        | some w => combineWholeFraction w d.containerFraction
        | none => none
  { success := true, name := name, price := price2 }

/-- One Flipkart fetch attempt, as the sweep sees it: the name/price selector
scans may have assigned new values (`none` keeps the value from earlier
attempts), and `raised = true` means an exception escaped the attempt after
those assignments, skipping the success check for that attempt. An attempt
that failed before parsing is `⟨true, none, none⟩`. -/
structure FlipkartAttempt where
  raised : Bool
  nameFound : Option String
  priceFound : Option ℚ

/-- Result of the Flipkart retry loop, together with the pacing delays that
were slept (one `time.sleep(random.uniform(2, 5))` at the top of every
attempt, in order). -/
structure FlipkartResult where
  success : Bool
  name : Option String
  price : Option ℚ
  sleeps : List ℚ

/-- The `name` variable after one attempt: a matched selector overwrites it,
otherwise the value from earlier attempts persists. -/
def nextName (a : FlipkartAttempt) (name : Option String) : Option String :=
  match a.nameFound with
  | some n => some n
  | none => name

/-- The `price` variable after one attempt, same persistence as `nextName`. -/
def nextPrice (a : FlipkartAttempt) (price : Option ℚ) : Option ℚ :=
  match a.priceFound with
  | some v => some v
  | none => price

/-- The body of `FlipkartScraper.get_product_info`'s retry loop:
`while attempt < max_retries and not (name and price)`. `remaining` is
`max_retries - attempt` and `k` the current attempt index into the attempt
and delay streams; `name`/`price` persist across attempts, every attempt
begins by sleeping `del k`, a raised attempt skips its success check, and
falling out of the loop returns the failure dictionary. -/
def flipkartGo (att : ℕ → FlipkartAttempt) (del : ℕ → ℚ) :
    ℕ → ℕ → Option String → Option ℚ → List ℚ → FlipkartResult
  | 0, _, name, price, sleeps => { success := false, name, price, sleeps }
  | remaining + 1, k, name, price, sleeps =>
      if truthyS name ∧ truthyQ price then
        { success := false, name, price, sleeps }
      else if ¬(att k).raised ∧ truthyS (nextName (att k) name) ∧
          truthyQ (nextPrice (att k) price) then
        { success := true, name := nextName (att k) name, price := nextPrice (att k) price,
          sleeps := sleeps ++ [del k] }
      else
        flipkartGo att del remaining (k + 1) (nextName (att k) name)
          (nextPrice (att k) price) (sleeps ++ [del k])

/-- `FlipkartScraper.get_product_info` with `max_retries = 3`, starting from
`name, price = None, None`; the attempt outcomes and the values drawn by
`random.uniform(2, 5)` are inputs. -/
def flipkartGetProductInfo (att : ℕ → FlipkartAttempt) (del : ℕ → ℚ) : FlipkartResult :=
  flipkartGo att del 3 0 none none []

/-- `urlparse` outcome for a URL string, precomputed: the raw string together
with its netloc and path components. -/
structure Url where
  raw : String
  netloc : String
  path : String
deriving DecidableEq

/-- A row of the `products` table. -/
structure Product where
  id : ℕ
  name : Option String
  url : Url
  current_price : Option ℚ
  target_price : ℚ
  lowest_price : Option ℚ
  highest_price : Option ℚ
  last_checked : Option ℚ
  is_active : Bool
  user_id : String
  store : String
deriving DecidableEq

/-- A row of the `price_history` table (`product_id` is a plain integer
column: the schema declares no foreign key and no cascade). -/
structure PriceHistory where
  product_id : ℕ
  price : Option ℚ
  timestamp : ℚ
deriving DecidableEq

/-- The transient `PriceAlert` value handed to the notifier: a pydantic model
whose `product_name` field is a required `str`, so constructing it from a
product whose stored name is null raises a `ValidationError`. -/
structure PriceAlert where
  product_id : ℕ
  product_name : String
  current_price : ℚ
  target_price : ℚ
  url : String
deriving DecidableEq

/-- The registration request body (`ProductCreate`). -/
structure ProductCreate where
  name : String
  url : Url
  target_price : ℚ
  user_id : String

def listPrefixB : List Char → List Char → Bool
  | [], _ => true
  | _ :: _, [] => false
  | a :: as, b :: bs => a == b && listPrefixB as bs

def listSub (needle : List Char) : List Char → Bool
  | [] => needle.isEmpty
  | c :: cs => listPrefixB needle (c :: cs) || listSub needle cs

/-- Python's `needle in hay` on strings. -/
def strIn (needle hay : String) : Bool :=
  listSub needle.toList hay.toList

inductive StoreKind
  | amazon
  | flipkart
deriving DecidableEq

/-- `ScraperFactory.get_scraper`: substring dispatch on the full URL string;
the `ValueError` for an unsupported store is modelled as `Except.error`. -/
def get_scraper (url : Url) : Except String StoreKind :=
  if strIn "amazon" url.raw then .ok .amazon
  else if strIn "flipkart" url.raw then .ok .flipkart
  else .error "Unsupported store URL"

/-- `ScraperFactory.get_store_name`. -/
def get_store_name (url : Url) : String :=
  if strIn "amazon" url.raw then "amazon"
  else if strIn "flipkart" url.raw then "flipkart"
  else "unknown"

/-- The scrapers' `is_valid_url` checks, on the parsed URL. -/
def is_valid_url : StoreKind → Url → Bool
  | .amazon, u => strIn "amazon" u.netloc && strIn "/dp/" u.path
  | .flipkart, u =>
      strIn "flipkart.com" u.netloc && (strIn "/p/" u.path || strIn "/product/" u.path)

/-- `if not product.lowest_price or new_price < product.lowest_price`:
a `None` or `0.0` stored bound counts as unset under Python truthiness. -/
def updateLowest (low : Option ℚ) (p : ℚ) : Option ℚ :=
  match low with
  | none => some p
  | some l => if l = 0 ∨ p < l then some p else some l

/-- `if not product.highest_price or new_price > product.highest_price`. -/
def updateHighest (high : Option ℚ) (p : ℚ) : Option ℚ :=
  match high with
  | none => some p
  | some h => if h = 0 ∨ h < p then some p else some h

/-- The price-apply step of `check_all_prices` (the spec's `applyPrice`):
write the new current price and check time, then widen the two bounds. -/
def applyPrice (now : ℚ) (prod : Product) (p : ℚ) : Product :=
  { prod with
    current_price := some p
    last_checked := some now
    lowest_price := updateLowest prod.lowest_price p
    highest_price := updateHighest prod.highest_price p }

/-- Per-product body of `check_all_prices`: when the scrape succeeded and its
price is truthy, apply the price, append exactly one history row, and when
`new_price <= product.target_price` (evaluated on the just-written price)
construct and dispatch a `PriceAlert`. The construction validates
`product_name`: for a product whose stored name is null it raises a
`ValidationError`, which the per-product catch swallows after the commits, so
no alert is produced for such a product. On a failed scrape only log, leaving
the product untouched. -/
def checkProductStep (now : ℚ) (prod : Product) (res : ExtractionResult) :
    Product × List PriceHistory × List PriceAlert :=
  if res.success && truthyQ res.price then
    let p := res.price.getD 0
    let prod1 := applyPrice now prod p
    let hist : List PriceHistory := [{ product_id := prod.id, price := some p, timestamp := now }]
    let alerts : List PriceAlert :=
      if p ≤ prod.target_price then
        match prod.name with
        | some nm =>
            [{ product_id := prod.id, product_name := nm, current_price := p,
               target_price := prod.target_price, url := prod.url.raw }]
        | none => []
      else []
    (prod1, hist, alerts)
  else (prod, [], [])

/-- `check_all_prices` over the sweep-start snapshot of active products paired
with their scrape outcomes: sequential processing, updates appended in order.
The per-product `try/except` makes the loop body total, so the sweep is a
total function: no exception escapes the sweep boundary. -/
def check_all_prices (now : ℚ) : List (Product × ExtractionResult) →
    List Product × List PriceHistory × List PriceAlert
  | [] => ([], [], [])
  | (prod, res) :: rest =>
      let s := checkProductStep now prod res
      let r := check_all_prices now rest
      (s.1 :: r.1, s.2.1 ++ r.2.1, s.2.2 ++ r.2.2)

/-- A product whose scrape did not yield a truthy price this sweep: the
`product_info['success'] and product_info['price']` guard fails. -/
def extractionFailed (res : ExtractionResult) : Bool :=
  !(res.success && truthyQ res.price)

/-- `add_product`: resolve and validate the store URL, reject a duplicate URL,
reject a failed scrape, then persist the product (price fields all seeded from
the scrape result, which may be `None`) plus one history row. `newId` models
the autoincrement primary key, `now` the clock; errors are the raised
`HTTPException`s, under which nothing is persisted. -/
def add_product (products : List Product) (histories : List PriceHistory)
    (req : ProductCreate) (info : ExtractionResult) (now : ℚ) (newId : ℕ) :
    Except String (List Product × List PriceHistory × Product) :=
  match get_scraper req.url with
  | .error e => .error e
  | .ok kind =>
      if ¬ is_valid_url kind req.url then .error "Invalid product URL for this store"
      else if (products.find? (fun p => p.url.raw == req.url.raw)).isSome then
        .error "Product already being tracked"
      else if ¬ info.success then .error "Failed to fetch product info"
      else
        let dbProduct : Product :=
          { id := newId
            name := if req.name ≠ "" then some req.name else info.name
            url := req.url
            current_price := info.price
            target_price := req.target_price
            lowest_price := info.price
            highest_price := info.price
            last_checked := some now
            is_active := true
            user_id := req.user_id
            store := get_store_name req.url }
        let h : PriceHistory := { product_id := newId, price := info.price, timestamp := now }
        .ok (products ++ [dbProduct], histories ++ [h], dbProduct)

/-- `delete_product`: 404 when no product has the id, otherwise remove that
one product row. Nothing in the endpoint touches the history table. -/
def delete_product (products : List Product) (histories : List PriceHistory) (pid : ℕ) :
    Except String (List Product × List PriceHistory) :=
  match products.find? (fun p => p.id == pid) with
  | none => .error "Product not found"
  | some _ => .ok (products.eraseP (fun p => p.id == pid), histories)

/-- A parsed Amazon product URL used by concrete witnesses. -/
def amazonUrl : Url :=
  { raw := "https://www.amazon.com/dp/B0TEST", netloc := "www.amazon.com", path := "/dp/B0TEST" }

/-- The product of the spec's sample scenario (target 500, all prices 600),
used by concrete witnesses. -/
def sampleProduct : Product :=
  { id := 1, name := some "Widget", url := amazonUrl, current_price := some 600,
    target_price := 500, lowest_price := some 600, highest_price := some 600,
    last_checked := some 0, is_active := true, user_id := "u1", store := "amazon" }

/-- An Amazon document on which every selector failed: the source has four
name selectors and ten price selectors, and no price container. -/
def emptyAmazonDoc : AmazonDoc :=
  { nameResults := List.replicate 4 none, priceResults := List.replicate 10 none,
    containerWhole := none, containerFraction := none }

theorem updateLowest_le (low : Option ℚ) (p : ℚ) :
    ∃ l, updateLowest low p = some l ∧ l ≤ p := by
  cases low with
  | none => exact ⟨p, rfl, le_refl p⟩
  | some l =>
      by_cases hc : l = 0 ∨ p < l
      · exact ⟨p, by simp [updateLowest, hc], le_refl p⟩
      · refine ⟨l, ?_, ?_⟩
        · show (if l = 0 ∨ p < l then some p else some l) = some l
          exact if_neg hc
        · push_neg at hc
          exact hc.2

theorem updateHighest_ge (high : Option ℚ) (p : ℚ) :
    ∃ h, updateHighest high p = some h ∧ p ≤ h := by
  cases high with
  | none => exact ⟨p, rfl, le_refl p⟩
  | some h =>
      by_cases hc : h = 0 ∨ h < p
      · exact ⟨p, by simp [updateHighest, hc], le_refl p⟩
      · refine ⟨h, ?_, ?_⟩
        · show (if h = 0 ∨ h < p then some p else some h) = some h
          exact if_neg hc
        · push_neg at hc
          exact hc.2

theorem checkProductStep_success (now : ℚ) (prod : Product) (res : ExtractionResult)
    (p : ℚ) (hs : res.success = true) (hp : res.price = some p) (hp0 : p ≠ 0) :
    checkProductStep now prod res =
      (applyPrice now prod p,
       [{ product_id := prod.id, price := some p, timestamp := now }],
       if p ≤ prod.target_price then
         match prod.name with
         | some nm =>
             [{ product_id := prod.id, product_name := nm, current_price := p,
                target_price := prod.target_price, url := prod.url.raw }]
         | none => []
       else []) := by
  simp [checkProductStep, hs, hp, truthyQ, hp0]

/-- C1: after the sweep's price-apply step writes a successfully extracted
truthy price `p`, the product's bounds are both set with
`lowest_price ≤ p ≤ highest_price` and `lowest_price ≤ highest_price`, the
current price is exactly `p`, and therefore
`lowest_price ≤ current_price ≤ highest_price` holds whenever all three
fields are non-null. -/
theorem sweep_apply_bounds_invariant (now : ℚ) (prod : Product) (res : ExtractionResult)
    (p : ℚ) (hs : res.success = true) (hp : res.price = some p) (hp0 : p ≠ 0) :
    ∃ l h,
      (checkProductStep now prod res).1.lowest_price = some l ∧
      (checkProductStep now prod res).1.highest_price = some h ∧
      (checkProductStep now prod res).1.current_price = some p ∧
      l ≤ p ∧ p ≤ h ∧ l ≤ h ∧
      (∀ c, (checkProductStep now prod res).1.current_price = some c → l ≤ c ∧ c ≤ h) := by
  rw [checkProductStep_success now prod res p hs hp hp0]
  obtain ⟨l, hl, hlp⟩ := updateLowest_le prod.lowest_price p
  obtain ⟨h, hh, hph⟩ := updateHighest_ge prod.highest_price p
  refine ⟨l, h, by simp [applyPrice, hl], by simp [applyPrice, hh], by simp [applyPrice],
    hlp, hph, le_trans hlp hph, ?_⟩
  intro c hc
  simp only [applyPrice, Option.some.injEq] at hc
  rw [← hc]
  exact ⟨hlp, hph⟩

/-- C1 witness: applying price 480 to the sample product. -/
theorem sweep_apply_bounds_invariant_witness :
    ∃ l h,
      (checkProductStep 0 sampleProduct ⟨true, some "Widget", some 480⟩).1.lowest_price = some l ∧
      (checkProductStep 0 sampleProduct ⟨true, some "Widget", some 480⟩).1.highest_price = some h ∧
      (checkProductStep 0 sampleProduct ⟨true, some "Widget", some 480⟩).1.current_price = some 480 ∧
      l ≤ 480 ∧ 480 ≤ h ∧ l ≤ h ∧
      (∀ c, (checkProductStep 0 sampleProduct ⟨true, some "Widget", some 480⟩).1.current_price
          = some c → l ≤ c ∧ c ≤ h) :=
  sweep_apply_bounds_invariant 0 sampleProduct ⟨true, some "Widget", some 480⟩ 480
    rfl rfl (by norm_num)

/-- C4: a product whose check ends in extraction failure is returned exactly
as it was — every field, in particular `current_price`, `lowest_price`,
`highest_price` and `last_checked`, is untouched — and neither a history row
nor an alert is produced for it. -/
theorem failed_check_frame (now : ℚ) (prod : Product) (res : ExtractionResult)
    (hf : extractionFailed res = true) :
    checkProductStep now prod res = (prod, [], []) := by
  cases hgb : (res.success && truthyQ res.price) with
  | false => simp [checkProductStep, hgb]
  | true =>
      rw [extractionFailed, hgb] at hf
      exact absurd hf (by decide)

/-- C4 witness: a failed scrape of the sample product changes nothing. -/
theorem failed_check_frame_witness :
    checkProductStep 0 sampleProduct ⟨false, none, none⟩ = (sampleProduct, [], []) :=
  failed_check_frame 0 sampleProduct ⟨false, none, none⟩ (by decide)

theorem checkProductStep_hist_length (now : ℚ) (prod : Product) (res : ExtractionResult) :
    (checkProductStep now prod res).2.1.length = if extractionFailed res then 0 else 1 := by
  cases hgb : (res.success && truthyQ res.price) with
  | false => simp [checkProductStep, extractionFailed, hgb]
  | true => simp [checkProductStep, extractionFailed, hgb]

theorem checkProductStep_alerts_le (now : ℚ) (prod : Product) (res : ExtractionResult) :
    (checkProductStep now prod res).2.2.length ≤ (checkProductStep now prod res).2.1.length := by
  cases hgb : (res.success && truthyQ res.price) with
  | false => simp [checkProductStep, hgb]
  | true =>
      simp only [checkProductStep, hgb, if_true]
      split
      · split <;> simp
      · simp

theorem sweep_counts_aux (now : ℚ) (items : List (Product × ExtractionResult)) :
    (check_all_prices now items).2.1.length
        + (items.filter (fun pr => extractionFailed pr.2)).length = items.length ∧
    (check_all_prices now items).2.2.length ≤ (check_all_prices now items).2.1.length ∧
    (check_all_prices now items).1.length = items.length := by
  induction items with
  | nil => simp [check_all_prices]
  | cons head rest ih =>
      obtain ⟨prod, res⟩ := head
      obtain ⟨ih1, ih2, ih3⟩ := ih
      have hh := checkProductStep_hist_length now prod res
      have ha := checkProductStep_alerts_le now prod res
      refine ⟨?_, ?_, ?_⟩
      · simp only [check_all_prices, List.length_append, List.filter_cons]
        cases hf : extractionFailed res with
        | false => rw [hf] at hh; simp at hh; simp [hh]; omega
        | true => rw [hf] at hh; simp at hh; simp [hh]; omega
      · simp only [check_all_prices, List.length_append]
        omega
      · simp only [check_all_prices, List.length_cons]
        omega

/-- C3: a sweep over `N` products of which `K` failed extraction appends
exactly `N − K` history rows, fires at most `N − K` alerts, and, the sweep
being a total function with a per-product catch, processes all `N` products
(the per-product failure of one never aborts the rest). -/
theorem sweep_counts (now : ℚ) (items : List (Product × ExtractionResult)) :
    (check_all_prices now items).2.1.length
        = items.length - (items.filter (fun pr => extractionFailed pr.2)).length ∧
    (check_all_prices now items).2.2.length
        ≤ items.length - (items.filter (fun pr => extractionFailed pr.2)).length ∧
    (check_all_prices now items).1.length = items.length := by
  obtain ⟨h1, h2, h3⟩ := sweep_counts_aux now items
  exact ⟨by omega, by omega, h3⟩

/-- C5 counterexample: the whole/fraction combinator maps the pair
("1,234", "56") to 1234, not to 1234.56 as claimed: `float("1,234.56")`
raises on the thousands separator and the fallback parses only the whole
part. -/
theorem price_combinator_counterexample :
    combineWholeFraction "1,234" (some "56") = some 1234 ∧ (1234 : ℚ) ≠ 1234.56 := by
  constructor
  · decide
  · norm_num

/-- C5 amended: normalization maps "$1,234.56" to 1234.56 and "₹1,299" to
1299.0, and the whole/fraction combinator maps ("1,234", "56") to 1234.0 (the
combined parse fails on the thousands separator, so only the whole part's
leading digit run survives). -/
theorem price_normalization_amended :
    extract_price "$1,234.56" = some 1234.56 ∧
    extract_price "₹1,299" = some 1299 ∧
    combineWholeFraction "1,234" (some "56") = some 1234 := by
  refine ⟨?_, by decide, by decide⟩
  have h : extract_price "$1,234.56" = some (mkRat 30864 25) := by decide
  rw [h]
  simp only [Option.some.injEq]
  norm_num [Rat.mkRat_eq_div]

/-- Truthiness of an optional stored bound: `None` and `0.0` are the falsy
values that the bound-update conditionals treat as "unset". -/
def nzOpt : Option ℚ → Bool
  | none => true
  | some v => v ≠ 0

/-- A product whose stored bounds are unset-or-truthy; this is exactly the
shape the bound fields have after any sequence of applied truthy prices. -/
def wellBounded (prod : Product) : Bool :=
  nzOpt prod.lowest_price && nzOpt prod.highest_price

/-- The price-apply step folded over a sequence of applied prices. -/
def applyPrices (now : ℚ) (ps : List ℚ) (prod : Product) : Product :=
  ps.foldl (fun acc q => applyPrice now acc q) prod

theorem updateLowest_idem (low : Option ℚ) (p : ℚ) :
    updateLowest (updateLowest low p) p = updateLowest low p := by
  cases low with
  | none =>
      show updateLowest (some p) p = some p
      show (if p = 0 ∨ p < p then some p else some p) = some p
      split <;> rfl
  | some l =>
      by_cases hc : l = 0 ∨ p < l
      · have h1 : updateLowest (some l) p = some p := by simp [updateLowest, hc]
        rw [h1]
        show (if p = 0 ∨ p < p then some p else some p) = some p
        split <;> rfl
      · have h1 : updateLowest (some l) p = some l := by
          show (if l = 0 ∨ p < l then some p else some l) = some l
          exact if_neg hc
        rw [h1, h1]

theorem updateHighest_idem (high : Option ℚ) (p : ℚ) :
    updateHighest (updateHighest high p) p = updateHighest high p := by
  cases high with
  | none =>
      show updateHighest (some p) p = some p
      show (if p = 0 ∨ p < p then some p else some p) = some p
      split <;> rfl
  | some h =>
      by_cases hc : h = 0 ∨ h < p
      · have h1 : updateHighest (some h) p = some p := by simp [updateHighest, hc]
        rw [h1]
        show (if p = 0 ∨ p < p then some p else some p) = some p
        split <;> rfl
      · have h1 : updateHighest (some h) p = some h := by
          show (if h = 0 ∨ h < p then some p else some h) = some h
          exact if_neg hc
        rw [h1, h1]

theorem updateLowest_mono (l p : ℚ) (hl : l ≠ 0) (hp : p ≠ 0) :
    ∃ l2, updateLowest (some l) p = some l2 ∧ l2 ≤ l ∧ l2 ≠ 0 := by
  by_cases hc : l = 0 ∨ p < l
  · rcases hc with h0 | hlt
    · exact absurd h0 hl
    · exact ⟨p, by simp [updateLowest, Or.inr hlt], le_of_lt hlt, hp⟩
  · refine ⟨l, ?_, le_refl l, hl⟩
    show (if l = 0 ∨ p < l then some p else some l) = some l
    exact if_neg hc

theorem updateHighest_mono (h p : ℚ) (hh : h ≠ 0) (hp : p ≠ 0) :
    ∃ h2, updateHighest (some h) p = some h2 ∧ h ≤ h2 ∧ h2 ≠ 0 := by
  by_cases hc : h = 0 ∨ h < p
  · rcases hc with h0 | hlt
    · exact absurd h0 hh
    · exact ⟨p, by simp [updateHighest, Or.inr hlt], le_of_lt hlt, hp⟩
  · refine ⟨h, ?_, le_refl h, hh⟩
    show (if h = 0 ∨ h < p then some p else some h) = some h
    exact if_neg hc

theorem nzOpt_updateLowest (low : Option ℚ) (p : ℚ) (hlow : nzOpt low = true) (hp : p ≠ 0) :
    nzOpt (updateLowest low p) = true := by
  cases low with
  | none => simp [updateLowest, nzOpt, hp]
  | some l =>
      have hl : l ≠ 0 := by simpa [nzOpt] using hlow
      obtain ⟨l2, h1, _, h3⟩ := updateLowest_mono l p hl hp
      simp [h1, nzOpt, h3]

theorem nzOpt_updateHighest (high : Option ℚ) (p : ℚ) (hhigh : nzOpt high = true) (hp : p ≠ 0) :
    nzOpt (updateHighest high p) = true := by
  cases high with
  | none => simp [updateHighest, nzOpt, hp]
  | some h =>
      have hh : h ≠ 0 := by simpa [nzOpt] using hhigh
      obtain ⟨h2, h1, _, h3⟩ := updateHighest_mono h p hh hp
      simp [h1, nzOpt, h3]

theorem applyPrice_wellBounded (now : ℚ) (prod : Product) (p : ℚ) (hp : p ≠ 0)
    (hwb : wellBounded prod = true) : wellBounded (applyPrice now prod p) = true := by
  simp only [wellBounded, Bool.and_eq_true] at hwb ⊢
  exact ⟨nzOpt_updateLowest prod.lowest_price p hwb.1 hp,
    nzOpt_updateHighest prod.highest_price p hwb.2 hp⟩

theorem applyPrices_lowest_mono (now : ℚ) (ps : List ℚ) :
    ∀ prod : Product, wellBounded prod = true → (∀ q ∈ ps, q ≠ 0) →
      ∀ l, prod.lowest_price = some l →
        ∃ l2, (applyPrices now ps prod).lowest_price = some l2 ∧ l2 ≤ l ∧ l2 ≠ 0 := by
  induction ps with
  | nil =>
      intro prod hwb _ l hl
      refine ⟨l, by simpa [applyPrices] using hl, le_refl l, ?_⟩
      have := (Bool.and_eq_true _ _).mp hwb
      rw [hl] at this
      simpa [nzOpt] using this.1
  | cons q rest ih =>
      intro prod hwb hqs l hl
      have hq : q ≠ 0 := hqs q (List.mem_cons_self q rest)
      have hl0 : l ≠ 0 := by
        have := (Bool.and_eq_true _ _).mp hwb
        rw [hl] at this
        simpa [nzOpt] using this.1
      obtain ⟨l1, hl1, hle1, hnz1⟩ := updateLowest_mono l q hl0 hq
      have happ : (applyPrice now prod q).lowest_price = some l1 := by
        simp [applyPrice, hl, hl1]
      obtain ⟨l2, h1, h2, h3⟩ := ih (applyPrice now prod q)
        (applyPrice_wellBounded now prod q hq hwb)
        (fun r hr => hqs r (List.mem_cons_of_mem q hr)) l1 happ
      have hfold : applyPrices now (q :: rest) prod
          = applyPrices now rest (applyPrice now prod q) := by
        simp [applyPrices]
      exact ⟨l2, by rw [hfold]; exact h1, le_trans h2 hle1, h3⟩

theorem applyPrices_highest_mono (now : ℚ) (ps : List ℚ) :
    ∀ prod : Product, wellBounded prod = true → (∀ q ∈ ps, q ≠ 0) →
      ∀ h, prod.highest_price = some h →
        ∃ h2, (applyPrices now ps prod).highest_price = some h2 ∧ h ≤ h2 ∧ h2 ≠ 0 := by
  induction ps with
  | nil =>
      intro prod hwb _ h hh
      refine ⟨h, by simpa [applyPrices] using hh, le_refl h, ?_⟩
      have := (Bool.and_eq_true _ _).mp hwb
      rw [hh] at this
      simpa [nzOpt] using this.2
  | cons q rest ih =>
      intro prod hwb hqs h hh
      have hq : q ≠ 0 := hqs q (List.mem_cons_self q rest)
      have hh0 : h ≠ 0 := by
        have := (Bool.and_eq_true _ _).mp hwb
        rw [hh] at this
        simpa [nzOpt] using this.2
      obtain ⟨h1, hup1, hle1, hnz1⟩ := updateHighest_mono h q hh0 hq
      have happ : (applyPrice now prod q).highest_price = some h1 := by
        simp [applyPrice, hh, hup1]
      obtain ⟨h2, hx1, hx2, hx3⟩ := ih (applyPrice now prod q)
        (applyPrice_wellBounded now prod q hq hwb)
        (fun r hr => hqs r (List.mem_cons_of_mem q hr)) h1 happ
      have hfold : applyPrices now (q :: rest) prod
          = applyPrices now rest (applyPrice now prod q) := by
        simp [applyPrices]
      exact ⟨h2, by rw [hfold]; exact hx1, le_trans hle1 hx2, hx3⟩

/-- C7: applying the same price `p` twice in a row leaves `lowest_price` and
`highest_price` unchanged after the first application, and for a product
whose set bounds are truthy (a stored `0.0` counts as unset under the code's
truthiness test) any sequence of applied (truthy) prices widens the bounds
monotonically: the lowest bound never increases and the highest never
decreases. -/
theorem bounds_idempotent_and_monotone (now now2 : ℚ) (prod : Product) (p : ℚ) (ps : List ℚ)
    (hwb : wellBounded prod = true) (hps : ∀ q ∈ ps, q ≠ 0) :
    ((applyPrice now2 (applyPrice now prod p) p).lowest_price
        = (applyPrice now prod p).lowest_price ∧
      (applyPrice now2 (applyPrice now prod p) p).highest_price
        = (applyPrice now prod p).highest_price) ∧
    (∀ l, prod.lowest_price = some l →
        ∃ l2, (applyPrices now ps prod).lowest_price = some l2 ∧ l2 ≤ l) ∧
    (∀ h, prod.highest_price = some h →
        ∃ h2, (applyPrices now ps prod).highest_price = some h2 ∧ h ≤ h2) := by
  refine ⟨⟨?_, ?_⟩, ?_, ?_⟩
  · simp [applyPrice, updateLowest_idem]
  · simp [applyPrice, updateHighest_idem]
  · intro l hl
    obtain ⟨l2, h1, h2, _⟩ := applyPrices_lowest_mono now ps prod hwb hps l hl
    exact ⟨l2, h1, h2⟩
  · intro h hh
    obtain ⟨h2, hx1, hx2, _⟩ := applyPrices_highest_mono now ps prod hwb hps h hh
    exact ⟨h2, hx1, hx2⟩

/-- C7 witness: the sample product (bounds 600) under the price sequence
[480, 700]. -/
theorem bounds_idempotent_and_monotone_witness :
    ((applyPrice 1 (applyPrice 0 sampleProduct 480) 480).lowest_price
        = (applyPrice 0 sampleProduct 480).lowest_price ∧
      (applyPrice 1 (applyPrice 0 sampleProduct 480) 480).highest_price
        = (applyPrice 0 sampleProduct 480).highest_price) ∧
    (∀ l, sampleProduct.lowest_price = some l →
        ∃ l2, (applyPrices 0 [480, 700] sampleProduct).lowest_price = some l2 ∧ l2 ≤ l) ∧
    (∀ h, sampleProduct.highest_price = some h →
        ∃ h2, (applyPrices 0 [480, 700] sampleProduct).highest_price = some h2 ∧ h ≤ h2) :=
  bounds_idempotent_and_monotone 0 1 sampleProduct 480 [480, 700] (by decide) (by decide)

theorem nextPrice_not_truthy (a : FlipkartAttempt) (price : Option ℚ)
    (hz : ∀ v, a.priceFound = some v → v = 0) (hp : truthyQ price = false) :
    truthyQ (nextPrice a price) = false := by
  cases hpf : a.priceFound with
  | none => simpa [nextPrice, hpf] using hp
  | some v =>
      have hv : v = 0 := hz v hpf
      simp [nextPrice, hpf, truthyQ, hv]

theorem flipkartGo_props (att : ℕ → FlipkartAttempt) (del : ℕ → ℚ) (rem : ℕ) :
    ∀ (k : ℕ) (name : Option String) (price : Option ℚ) (sleeps : List ℚ),
      (flipkartGo att del rem k name price sleeps).sleeps.length ≤ sleeps.length + rem ∧
      (∀ d ∈ (flipkartGo att del rem k name price sleeps).sleeps,
          d ∈ sleeps ∨ ∃ j, d = del j) ∧
      ((flipkartGo att del rem k name price sleeps).success = true →
          truthyS (flipkartGo att del rem k name price sleeps).name = true ∧
          truthyQ (flipkartGo att del rem k name price sleeps).price = true) ∧
      ((∀ j v, (att j).priceFound = some v → v = 0) → truthyQ price = false →
          (flipkartGo att del rem k name price sleeps).success = false) := by
  induction rem with
  | zero =>
      intro k name price sleeps
      refine ⟨by simp [flipkartGo], fun d hd => Or.inl (by simpa [flipkartGo] using hd), ?_, ?_⟩
      · intro hsucc
        simp [flipkartGo] at hsucc
      · intro _ _
        simp [flipkartGo]
  | succ n ih =>
      intro k name price sleeps
      by_cases hdone : truthyS name = true ∧ truthyQ price = true
      · have heq : flipkartGo att del (n + 1) k name price sleeps
            = { success := false, name, price, sleeps } := by
          simp [flipkartGo, hdone]
        rw [heq]
        refine ⟨by simp, fun d hd => Or.inl hd, ?_, fun _ _ => rfl⟩
        intro hsucc
        simp at hsucc
      · by_cases hg2 : (¬(att k).raised = true) ∧ truthyS (nextName (att k) name) = true ∧
            truthyQ (nextPrice (att k) price) = true
        · have heq : flipkartGo att del (n + 1) k name price sleeps
              = { success := true, name := nextName (att k) name,
                  price := nextPrice (att k) price, sleeps := sleeps ++ [del k] } := by
            simp only [flipkartGo, if_neg hdone, if_pos hg2]
          rw [heq]
          refine ⟨by simp, ?_, fun _ => ⟨hg2.2.1, hg2.2.2⟩, ?_⟩
          · intro d hd
            rcases List.mem_append.mp hd with hin | hsing
            · exact Or.inl hin
            · exact Or.inr ⟨k, List.mem_singleton.mp hsing⟩
          · intro hz hpz
            have hfalse := nextPrice_not_truthy (att k) price (hz k) hpz
            rw [hfalse] at hg2
            exact absurd hg2.2.2 (by simp)
        · have heq : flipkartGo att del (n + 1) k name price sleeps
              = flipkartGo att del n (k + 1) (nextName (att k) name)
                  (nextPrice (att k) price) (sleeps ++ [del k]) := by
            simp only [flipkartGo, if_neg hdone, if_neg hg2]
          obtain ⟨ih1, ih2, ih3, ih4⟩ :=
            ih (k + 1) (nextName (att k) name) (nextPrice (att k) price) (sleeps ++ [del k])
          rw [heq]
          refine ⟨by simp at ih1 ⊢; omega, ?_, ih3, ?_⟩
          · intro d hd
            rcases ih2 d hd with hin | hjs
            · rcases List.mem_append.mp hin with hs | hsing
              · exact Or.inl hs
              · exact Or.inr ⟨k, List.mem_singleton.mp hsing⟩
            · exact Or.inr hjs
          · intro hz hpz
            exact ih4 hz (nextPrice_not_truthy (att k) price (hz k) hpz)

/-- C6 counterexample: three failing attempts with the uniform draws 5, 2, 2
(each within [2, 5]) sleep exactly [5, 2, 2] — one sleep before every attempt,
three sleeps for three attempts, and the delays are not increasing (not even
non-decreasing), because each draw is independent: the code never grows the
delay between attempts. -/
theorem flipkart_delay_not_increasing_counterexample :
    (flipkartGetProductInfo (fun _ => ⟨true, none, none⟩)
        (fun k => if k = 0 then 5 else 2)).sleeps = [5, 2, 2] ∧
    ¬ List.Chain' (· ≤ ·) [(5 : ℚ), 2, 2] := by
  constructor
  · decide
  · intro hch
    have h52 := (List.chain'_cons.mp hch).1
    norm_num at h52

/-- C6 amended: the fetcher makes at most 3 attempts, sleeping a randomized
delay of 2-5 time-units before each attempt (drawn independently each time,
not necessarily increasing); a success result is only returned once an
attempt has yielded both a truthy name and a truthy price, and if no attempt
ever yields a truthy price the fetcher gives up with a failure result. -/
theorem flipkart_retry_amended (att : ℕ → FlipkartAttempt) (del : ℕ → ℚ)
    (hdel : ∀ k, 2 ≤ del k ∧ del k ≤ 5) :
    (flipkartGetProductInfo att del).sleeps.length ≤ 3 ∧
    (∀ d ∈ (flipkartGetProductInfo att del).sleeps, 2 ≤ d ∧ d ≤ 5) ∧
    ((flipkartGetProductInfo att del).success = true →
        truthyS (flipkartGetProductInfo att del).name = true ∧
        truthyQ (flipkartGetProductInfo att del).price = true) ∧
    ((∀ j v, (att j).priceFound = some v → v = 0) →
        (flipkartGetProductInfo att del).success = false) := by
  obtain ⟨h1, h2, h3, h4⟩ := flipkartGo_props att del 3 0 none none []
  refine ⟨by simpa using h1, ?_, h3, fun hz => h4 hz rfl⟩
  intro d hd
  rcases h2 d hd with hin | ⟨j, rfl⟩
  · simp at hin
  · exact hdel j

/-- C6 amended witness: a first attempt that finds name and price, constant
delay 3. -/
theorem flipkart_retry_amended_witness :
    (flipkartGetProductInfo (fun _ => ⟨false, some "Widget", some 480⟩)
        (fun _ => 3)).sleeps.length ≤ 3 ∧
    (∀ d ∈ (flipkartGetProductInfo (fun _ => ⟨false, some "Widget", some 480⟩)
        (fun _ => 3)).sleeps, 2 ≤ d ∧ d ≤ 5) ∧
    ((flipkartGetProductInfo (fun _ => ⟨false, some "Widget", some 480⟩)
        (fun _ => 3)).success = true →
        truthyS (flipkartGetProductInfo (fun _ => ⟨false, some "Widget", some 480⟩)
            (fun _ => 3)).name = true ∧
        truthyQ (flipkartGetProductInfo (fun _ => ⟨false, some "Widget", some 480⟩)
            (fun _ => 3)).price = true) ∧
    ((∀ j v, ((fun (_ : ℕ) => (⟨false, some "Widget", some 480⟩ : FlipkartAttempt)) j).priceFound
          = some v → v = 0) →
        (flipkartGetProductInfo (fun _ => ⟨false, some "Widget", some 480⟩)
            (fun _ => 3)).success = false) :=
  flipkart_retry_amended (fun _ => ⟨false, some "Widget", some 480⟩) (fun _ => 3)
    (fun _ => ⟨by norm_num, by norm_num⟩)

theorem find?_isSome_of_mem {α : Type} (p : α → Bool) (l : List α) (x : α)
    (hx : x ∈ l) (hpx : p x = true) : (l.find? p).isSome = true := by
  induction l with
  | nil => cases hx
  | cons a as ih =>
      cases hpa : p a with
      | true => simp [List.find?_cons_of_pos _ hpa]
      | false =>
          rw [List.find?_cons_of_neg _ (by simp [hpa])]
          rcases List.mem_cons.mp hx with rfl | hmem
          · rw [hpa] at hpx
            cases hpx
          · exact ih hmem

/-- C8: a registration request whose URL string equals the URL of an
already-tracked product is rejected with an error (the display name and
target price of the request are arbitrary), and the `Except.error` result
carries no store: nothing is persisted. -/
theorem add_product_duplicate_rejected (products : List Product) (histories : List PriceHistory)
    (req : ProductCreate) (info : ExtractionResult) (now : ℚ) (newId : ℕ)
    (hdup : ∃ p ∈ products, p.url.raw = req.url.raw) :
    ∃ e, add_product products histories req info now newId = Except.error e := by
  unfold add_product
  cases hscr : get_scraper req.url with
  | error e => exact ⟨e, rfl⟩
  | ok kind =>
      by_cases hval : is_valid_url kind req.url = true
      · refine ⟨"Product already being tracked", ?_⟩
        obtain ⟨p, hp, he⟩ := hdup
        have hfind : (products.find? (fun q => q.url.raw == req.url.raw)).isSome = true :=
          find?_isSome_of_mem _ products p hp (by simp [he])
        simp [hval, hfind]
      · refine ⟨"Invalid product URL for this store", ?_⟩
        simp [hval]

/-- C8 witness: re-registering the sample product's URL with a different name
and target price is rejected. -/
theorem add_product_duplicate_rejected_witness :
    ∃ e, add_product [sampleProduct] []
        { name := "Other name", url := amazonUrl, target_price := 450, user_id := "u2" }
        ⟨true, some "Widget", some 600⟩ 0 2 = Except.error e :=
  add_product_duplicate_rejected [sampleProduct] []
    { name := "Other name", url := amazonUrl, target_price := 450, user_id := "u2" }
    ⟨true, some "Widget", some 600⟩ 0 2 ⟨sampleProduct, List.mem_singleton_self _, rfl⟩

/-- C9: deleting a product removes exactly the product row with that id and
leaves the price-history table untouched: there is no cascade and no cleanup
of history rows. -/
theorem delete_product_preserves_history (products : List Product)
    (histories : List PriceHistory) (pid : ℕ) (r : List Product × List PriceHistory)
    (h : delete_product products histories pid = Except.ok r) :
    r.2 = histories ∧ r.1 = products.eraseP (fun p => p.id == pid) := by
  unfold delete_product at h
  cases hf : products.find? (fun p => p.id == pid) with
  | none =>
      rw [hf] at h
      cases h
  | some q =>
      rw [hf] at h
      simp only [Except.ok.injEq] at h
      rw [← h]
      exact ⟨rfl, rfl⟩

/-- A concrete history row for the sample product, used by witnesses. -/
def sampleHistoryRow : PriceHistory := { product_id := 1, price := some 600, timestamp := 0 }

/-- C9 witness: deleting the sample product keeps its history row. -/
theorem delete_product_preserves_history_witness :
    (([] : List Product), [sampleHistoryRow]).2 = [sampleHistoryRow] ∧
    (([] : List Product), [sampleHistoryRow]).1
        = [sampleProduct].eraseP (fun p => p.id == 1) :=
  delete_product_preserves_history [sampleProduct] [sampleHistoryRow] 1
    ([], [sampleHistoryRow]) rfl

/-- The registration request of the C10 scenario: an empty display name, so
the persisted name falls back to the scrape's name field. -/
def nullReq : ProductCreate :=
  { name := "", url := amazonUrl, target_price := 500, user_id := "u1" }

/-- The fully null product that C10's registration persists. -/
def nullProduct : Product :=
  { id := 1, name := none, url := amazonUrl, current_price := none, target_price := 500,
    lowest_price := none, highest_price := none, last_checked := some 0, is_active := true,
    user_id := "u1", store := "amazon" }

/-- C10: the Amazon extractor reports `success = True` on every parsed
document, even one on which every selector failed and name and price are both
`None`; registering such a URL then persists a product whose current, lowest
and highest prices are all null together with a history row whose price is
null. -/
theorem amazon_success_despite_null_fields :
    (∀ d : AmazonDoc, (amazonGetProductInfo d).success = true) ∧
    amazonGetProductInfo emptyAmazonDoc = ⟨true, none, none⟩ ∧
    add_product [] [] nullReq ⟨true, none, none⟩ 0 1
      = Except.ok ([nullProduct], [{ product_id := 1, price := none, timestamp := 0 }],
          nullProduct) := by
  exact ⟨fun d => rfl, rfl, rfl⟩

/-- C2 counterexample: a null-named product (exactly the shape registration
persists in the C10 scenario) with target price 500 and a successfully
extracted price of 480 produces no alert even though 480 ≤ 500: the
`PriceAlert` construction raises a `ValidationError` on the null name and the
per-product catch swallows it, refuting "an alert event is produced if and
only if p ≤ target_price". -/
theorem alert_requires_nonnull_name_counterexample :
    (checkProductStep 0 nullProduct ⟨true, none, some 480⟩).2.2 = [] ∧
    (480 : ℚ) ≤ nullProduct.target_price ∧
    (checkProductStep 0 nullProduct ⟨true, none, some 480⟩).1.current_price = some 480 := by
  refine ⟨rfl, by norm_num [nullProduct], rfl⟩

/-- C2 amended: for a product processed with a successfully extracted truthy
price `p`, an alert is produced iff `p ≤ target_price` and the stored product
name is non-null (a null name makes the `PriceAlert` construction raise a
`ValidationError` that the per-product catch swallows, so no alert is
produced); the fired alert carries `p`, which is exactly the just-written
current price, and the decision is independent of the previously stored
current price (hence of the direction of the price change: a rise back above
target followed by a drop to exactly target fires again). -/
theorem alert_iff_price_le_target_amended (now : ℚ) (prod : Product) (res : ExtractionResult)
    (p : ℚ) (hs : res.success = true) (hp : res.price = some p) (hp0 : p ≠ 0) :
    ((checkProductStep now prod res).2.2 ≠ [] ↔
        p ≤ prod.target_price ∧ prod.name.isSome = true) ∧
    (checkProductStep now prod res).1.current_price = some p ∧
    (∀ a ∈ (checkProductStep now prod res).2.2,
        a.current_price = p ∧ a.target_price = prod.target_price) ∧
    (∀ old : Option ℚ,
        (checkProductStep now { prod with current_price := old } res).2.2 =
          (checkProductStep now prod res).2.2) := by
  rw [checkProductStep_success now prod res p hs hp hp0]
  refine ⟨?_, by simp [applyPrice], ?_, ?_⟩
  · by_cases hle : p ≤ prod.target_price
    · cases hn : prod.name with
      | none => simp [hle, hn]
      | some nm => simp [hle, hn]
    · simp [hle]
  · intro a ha
    by_cases hle : p ≤ prod.target_price
    · cases hn : prod.name with
      | none => simp [hle, hn] at ha
      | some nm =>
          simp only [hle, if_true, hn, List.mem_singleton] at ha
          rw [ha]
          exact ⟨rfl, rfl⟩
    · simp [hle] at ha
  · intro old
    rw [checkProductStep_success now { prod with current_price := old } res p hs hp hp0]

/-- C2 amended witness: price 480 at target 500 on the (named) sample product
fires; the stored current price does not matter. -/
theorem alert_iff_price_le_target_amended_witness :
    ((checkProductStep 0 sampleProduct ⟨true, some "Widget", some 480⟩).2.2 ≠ [] ↔
        (480 : ℚ) ≤ sampleProduct.target_price ∧ sampleProduct.name.isSome = true) ∧
    (checkProductStep 0 sampleProduct ⟨true, some "Widget", some 480⟩).1.current_price
        = some 480 ∧
    (∀ a ∈ (checkProductStep 0 sampleProduct ⟨true, some "Widget", some 480⟩).2.2,
        a.current_price = 480 ∧ a.target_price = sampleProduct.target_price) ∧
    (∀ old : Option ℚ,
        (checkProductStep 0 { sampleProduct with current_price := old }
            ⟨true, some "Widget", some 480⟩).2.2 =
          (checkProductStep 0 sampleProduct ⟨true, some "Widget", some 480⟩).2.2) :=
  alert_iff_price_le_target_amended 0 sampleProduct ⟨true, some "Widget", some 480⟩ 480
    rfl rfl (by norm_num)
